import Mathlib

/-!
Verification of the connections-extension indexer
(`src/cpp/session/modules/connections/ConnectionsIndexer.cpp`).

The registry, the descriptor-file block splitting, the indexer lifecycle
hooks and the console-input trigger are embedded as executable Lean
functions, translated from the C++ source.  File reading is replaced by
its result (`Option String`, `none` for a read error), and the two pieces
of this repository that are not under `src/` — the external DCF parser
(`core/text/DcfParser`) and the `ppe::Indexer` scan driver providing
`start()` / `running()` — are modelled from the spec, as marked on their
definitions.
-/

/-- Whitespace as tested by `std::isspace` (used by `boost::algorithm::trim_copy`
and by the DCF parser's treatment of continuation lines). -/
def isSpaceChar (c : Char) : Bool :=
  c = ' ' || c = '\t' || c = '\n' || c = '\r' || c = '\x0b' || c = '\x0c'

/-- Prepend a character onto the first token of a token list (helper for the
character-level scanners below). -/
def consCur (c : Char) : List (List Char) → List (List Char)
  | [] => [[c]]
  | t :: ts => (c :: t) :: ts

/-- Trim leading and trailing whitespace from a character list
(`boost::algorithm::trim_copy`). -/
def trimChars (l : List Char) : List Char :=
  ((l.dropWhile isSpaceChar).reverse.dropWhile isSpaceChar).reverse

/-- Split a character list into lines at every single `'\n'`. -/
def splitLinesC : List Char → List (List Char)
  | [] => [[]]
  | c :: rest => if c = '\n' then [] :: splitLinesC rest else consCur c (splitLinesC rest)

/-- Scanner state for `splitAux`: scanning a token, having seen one newline,
or inside a (two-or-more newline) separator run. -/
inductive SplitState where
  | norm : SplitState
  | one : SplitState
  | sep : SplitState

/-- Field-splitting of `boost::sregex_token_iterator` with submatch `-1` over
the separator `\n{2,}` (from `ConnectionsRegistry::add(pkgName, FilePath)`):
tokens are the subsequences between maximal runs of two-or-more newlines; a
single newline stays inside its token; an empty token before a leading
separator is kept, the empty suffix after a trailing separator is not. -/
def splitAux : SplitState → List Char → List (List Char)
  | .norm, [] => [[]]
  | .one, [] => [['\n']]
  | .sep, [] => []
  | .norm, c :: rest => if c = '\n' then splitAux .one rest else consCur c (splitAux .norm rest)
  | .one, c :: rest =>
      if c = '\n' then [] :: splitAux .sep rest
      else consCur '\n' (consCur c (splitAux .norm rest))
  | .sep, c :: rest => if c = '\n' then splitAux .sep rest else consCur c (splitAux .norm rest)

/-- `add(pkgName, FilePath)` splits the file contents at the regex `\n{2,}`
into blocks.  On empty contents the token iterator yields no token at all. -/
def splitBlocks (s : String) : List String :=
  match s.data with
  | [] => []
  | l => (splitAux .norm l).map (fun t => String.mk t)

/-- Strict lexicographic order on character lists, comparing code points
(the order `std::less<std::string>` induces on the valid strings here). -/
def ltChars : List Char → List Char → Bool
  | [], [] => false
  | [], _ :: _ => true
  | _ :: _, [] => false
  | a :: as, b :: bs =>
      if a.toNat < b.toNat then true
      else if b.toNat < a.toNat then false
      else ltChars as bs

/-- Strict `std::map` key order on strings. -/
def strLt (a b : String) : Bool :=
  ltChars a.data b.data

/-- `std::map` insertion (`operator[]` assignment): keys are kept in strictly
increasing order; an existing key has its value overwritten in place. -/
def mapInsert {α : Type} (k : String) (v : α) : List (String × α) → List (String × α)
  | [] => [(k, v)]
  | (k', v') :: rest =>
      if strLt k k' then (k, v) :: (k', v') :: rest
      else if k = k' then (k, v) :: rest
      else (k', v') :: mapInsert k v rest

/-- `std::map` lookup: the value stored under `k`, if any. -/
def mapLookup {α : Type} (k : String) : List (String × α) → Option α
  | [] => none
  | (k', v) :: rest => if k = k' then some v else mapLookup k rest

/-- Split a line at its first colon: the key is everything before the colon,
the value everything after it with leading whitespace dropped.  A line with
no colon does not parse. -/
def splitAtColon : List Char → Option (List Char × List Char)
  | [] => none
  | c :: rest =>
      if c = ':' then some ([], rest.dropWhile isSpaceChar)
      else
        match splitAtColon rest with
        | some (k, v) => some (c :: k, v)
        | none => none

/-- Modelled from the spec: the line loop of the external DCF parser
(`core/text/parseDcfFile`, not under `src/`) — "colon-delimited key:value,
folded continuation lines".  Blank lines are skipped; a line starting with
whitespace folds into the value of the previous field; any other line must
be `key: value`.  A malformed line stops the parse with an error flag,
returning the fields accumulated so far (the out-parameter keeps them). -/
def parseDcfLines : List (String × String) → Option String → List (List Char) →
    List (String × String) × Bool
  | fields, _, [] => (fields, false)
  | fields, lk, [] :: rest => parseDcfLines fields lk rest
  | fields, lk, (c :: cs) :: rest =>
      if isSpaceChar c then
        match lk with
        | some k =>
            match mapLookup k fields with
            | some v =>
                parseDcfLines
                  (mapInsert k (v ++ "\n" ++ String.mk (trimChars (c :: cs))) fields) lk rest
            | none => (fields, true)
        | none => (fields, true)
      else
        match splitAtColon (c :: cs) with
        | some (k, v) =>
            parseDcfLines (mapInsert (String.mk k) (String.mk v) fields) (some (String.mk k)) rest
        | none => (fields, true)

/-- Modelled from the spec: `text::parseDcfFile(contents, true, &fields, &errMsg)`
on one descriptor block — `parse(text) -> fields_mapping, or failure`, the
fields parsed before a failure remaining in the out-parameter. -/
def parseDcfFile (contents : String) : List (String × String) × Bool :=
  parseDcfLines [] none (splitLinesC contents.data)

/-- `ConnectionsRegistry::parseConnectionsDcf`: parse a block, log a parse
error (logging has no further effect), and return the fields regardless. -/
def parseConnectionsDcf (contents : String) : List (String × String) :=
  (parseDcfFile contents).1

/-- `fields["Name"]` on a `std::map<std::string, std::string>`: the stored
value, or the default-constructed empty string when the key is absent. -/
def fieldsGet (fields : List (String × String)) (k : String) : String :=
  (mapLookup k fields).getD ""

/-- `ConnectionsIndexEntry`: one named connection extension owned by one
package; default-constructed with both strings empty. -/
structure ConnectionsIndexEntry where
  name : String
  package : String
deriving DecidableEq, Repr

/-- A JSON value as built by this module: a string or an object whose fields
appear in insertion order (`json::Object`). -/
inductive JValue where
  | str : String → JValue
  | obj : List (String × JValue) → JValue
deriving Repr

/-- `ConnectionsIndexEntry::toJson`: `{"name": name_, "package": package_}`. -/
def ConnectionsIndexEntry.toJson (e : ConnectionsIndexEntry) : JValue :=
  .obj [("name", .str e.name), ("package", .str e.package)]

/-- `ConnectionsRegistry`: its `connections_` member, a
`std::map<std::string, ConnectionsIndexEntry>` (strictly sorted by key). -/
abbrev ConnectionsRegistry := List (String × ConnectionsIndexEntry)

/-- `ConnectionsRegistry::constructKey`. -/
def constructKey (package name : String) : String :=
  package ++ "::" ++ name

/-- `ConnectionsRegistry::add(package, spec)`:
`connections_[constructKey(package, spec.getName())] = spec`. -/
def ConnectionsRegistry.add (package : String) (spec : ConnectionsIndexEntry)
    (r : ConnectionsRegistry) : ConnectionsRegistry :=
  mapInsert (constructKey package spec.name) spec r

/-- `ConnectionsRegistry::add(pkgName, fields)`: build an entry from
`fields["Name"]` and the package name, then add it. -/
def ConnectionsRegistry.addDcfFields (pkgName : String) (fields : List (String × String))
    (r : ConnectionsRegistry) : ConnectionsRegistry :=
  ConnectionsRegistry.add pkgName ⟨fieldsGet fields "Name", pkgName⟩ r

/-- `ConnectionsRegistry::add(pkgName, connectionExtensionPath)` with the file
read replaced by its result: a read error (`none`) is logged and the whole
file is skipped; otherwise the contents are split at `\n{2,}` and every block
is parsed and added. -/
def ConnectionsRegistry.addDcfFile (pkgName : String) (contents : Option String)
    (r : ConnectionsRegistry) : ConnectionsRegistry :=
  match contents with
  | none => r
  | some text =>
      (splitBlocks text).foldl
        (fun acc block => ConnectionsRegistry.addDcfFields pkgName (parseConnectionsDcf block) acc) r

/-- `ConnectionsRegistry::contains`: `connections_.count(constructKey(...))`. -/
def ConnectionsRegistry.contains (package name : String) (r : ConnectionsRegistry) : Bool :=
  (mapLookup (constructKey package name) r).isSome

/-- `ConnectionsRegistry::get`: `connections_[constructKey(...)]` —
`std::map::operator[]` default-inserts a default-constructed entry when the
key is absent, so the call returns an entry and the (possibly grown) map. -/
def ConnectionsRegistry.get (package name : String) (r : ConnectionsRegistry) :
    ConnectionsIndexEntry × ConnectionsRegistry :=
  match mapLookup (constructKey package name) r with
  | some e => (e, r)
  | none => (⟨"", ""⟩, mapInsert (constructKey package name) (⟨"", ""⟩ : ConnectionsIndexEntry) r)

/-- `ConnectionsRegistry::toJson`: an object with one field per map key, in
the map's (sorted) iteration order, each value the entry's serialization. -/
def ConnectionsRegistry.toJson (r : ConnectionsRegistry) : JValue :=
  .obj (r.map (fun p => (p.1, p.2.toJson)))

/-- `ConnectionsRegistry::size`: `connections_.size()`. -/
def ConnectionsRegistry.size (r : ConnectionsRegistry) : Nat :=
  r.length

/-- The task handed to `module_context::scheduleDelayedWork` by the trigger. -/
inductive ScheduledTask where
  | indexLibraryPaths : ScheduledTask
deriving DecidableEq, Repr

/-- One call to `module_context::scheduleDelayedWork(delay, work, idleOnly)`. -/
structure ScheduledWork where
  delaySeconds : Nat
  idleOnly : Bool
  task : ScheduledTask
deriving DecidableEq, Repr

/-- The static command list initialized by `onConsoleInput`. -/
def packageCommands : List String :=
  ["install.packages", "remove.packages", "devtools::install_github",
   "install_github", "devtools::load_all", "load_all"]

/-- The `BOOST_FOREACH` loop of `onConsoleInput`: at the first command that is
a prefix of the trimmed input, schedule one delayed idle-only re-index and
return; otherwise fall through scheduling nothing. -/
def matchCommandLoop : List String → List Char → List ScheduledWork
  | [], _ => []
  | command :: rest, input =>
      if command.data.isPrefixOf input then [⟨1, true, .indexLibraryPaths⟩]
      else matchCommandLoop rest input

/-- `onConsoleInput(input)`: return immediately when the packages pane is
disabled; otherwise trim the input and scan the command list.  The result is
the list of `scheduleDelayedWork` calls made. -/
def onConsoleInput (disablePackages : Bool) (input : String) : List ScheduledWork :=
  if disablePackages then []
  else matchCommandLoop packageCommands (trimChars input.data)

/-- One `onWork(pkgName, connectionExtensionPath)` delivery from the scan
driver, with the descriptor file read replaced by its result
(`none` = read error). -/
structure WorkItem where
  pkgName : String
  contents : Option String
deriving Repr

/-- The development self-entry situation at `onIndexingCompleted`: present
exactly when `isDevtoolsLoadAllActive()` holds and
`inst/rstudio/connections.dcf` exists under the build target path, carrying
the active package's name and that file's read result. -/
structure DevInfo where
  pkgName : String
  contents : Option String
deriving Repr

/-- Modelled from the spec: the events driving the indexer.  `request` is a
call to `indexLibraryPathsWithContinuation` (continuations identified by a
number); `work` and `complete` are the `ppe::Indexer` scan-driver callbacks
`onWork` / `onIndexingCompleted`, delivered only while a walk started by
`start()` is in flight. -/
inductive IndexEvent where
  | request : Option Nat → IndexEvent
  | work : WorkItem → IndexEvent
  | complete : Option DevInfo → IndexEvent

/-- The process-wide indexing state: the scan driver's `running()` flag, the
in-progress registry `pRegistry_`, the continuation queue `continuations_`,
the published registry `s_pCurrentConnectionsRegistry`, the log of
continuation resolutions `(id, payload)` in the order they were invoked, and
the number of passes started so far. -/
structure IndexerState where
  running : Bool
  pRegistry : ConnectionsRegistry
  continuations : List Nat
  currentRegistry : ConnectionsRegistry
  resolutions : List (Nat × JValue)
  passesStarted : Nat
deriving Repr

/-- The state at module load: nothing running, empty published registry. -/
def initialIndexerState : IndexerState :=
  { running := false, pRegistry := [], continuations := [], currentRegistry := [],
    resolutions := [], passesStarted := 0 }

/-- One step of the indexer.
`request c` is `indexLibraryPathsWithContinuation`: a supplied continuation
is always appended to `continuations_`; then `start()` is called only if
`running()` is false, which (per the spec's scan-driver contract) enters the
Running state and fires `onIndexingStarted`, allocating a fresh registry.
`work w` is `onWork`: `pRegistry_->add(pkgName, path)`.
`complete dev` is `onIndexingCompleted`: optionally add the development
self-entry, publish `pRegistry_` via `updateConnectionsRegistry`, then invoke
every queued continuation in order with a success payload of the *published*
registry's JSON.  The source never clears `continuations_` here. -/
def indexStep (s : IndexerState) : IndexEvent → IndexerState
  | .request c =>
      let s1 :=
        match c with
        | some id => { s with continuations := s.continuations ++ [id] }
        | none => s
      if s1.running then s1
      else { s1 with running := true, pRegistry := [], passesStarted := s1.passesStarted + 1 }
  | .work w =>
      if s.running then
        { s with pRegistry := ConnectionsRegistry.addDcfFile w.pkgName w.contents s.pRegistry }
      else s
  | .complete dev =>
      if s.running then
        let reg :=
          match dev with
          | some d => ConnectionsRegistry.addDcfFile d.pkgName d.contents s.pRegistry
          | none => s.pRegistry
        { s with
            running := false
            pRegistry := reg
            currentRegistry := reg
            resolutions :=
              s.resolutions ++ s.continuations.map (fun id => (id, reg.toJson)) }
      else s

/-- Run a sequence of indexer events. -/
def runEvents (s : IndexerState) (es : List IndexEvent) : IndexerState :=
  es.foldl indexStep s

/-- The registry a pass produces when continued from `base`: every `onWork`
add in order, then the development self-entry, if any. -/
def passExtend (base : ConnectionsRegistry) (works : List WorkItem) (dev : Option DevInfo) :
    ConnectionsRegistry :=
  match dev with
  | some d =>
      ConnectionsRegistry.addDcfFile d.pkgName d.contents
        (works.foldl (fun r w => ConnectionsRegistry.addDcfFile w.pkgName w.contents r) base)
  | none => works.foldl (fun r w => ConnectionsRegistry.addDcfFile w.pkgName w.contents r) base

/-- The registry a completed pass publishes: every `onWork` add applied to a
fresh empty registry, then the development self-entry, if any. -/
def passRegistry (works : List WorkItem) (dev : Option DevInfo) : ConnectionsRegistry :=
  passExtend [] works dev

example : splitBlocks "Name: pg\n\nName: sqlite\n" = ["Name: pg", "Name: sqlite\n"] := by decide
example : parseDcfFile "Name: pg" = ([("Name", "pg")], false) := by decide
example : parseDcfFile "@@@" = ([], true) := by decide
example :
    ConnectionsRegistry.addDcfFile "odbc" (some "Name: pg\n\nName: sqlite\n") [] =
      [("odbc::pg", ⟨"pg", "odbc"⟩), ("odbc::sqlite", ⟨"sqlite", "odbc"⟩)] := rfl

theorem char_eq_of_toNat_eq {a b : Char} (h : a.toNat = b.toNat) : a = b :=
  Char.eq_of_val_eq (UInt32.eq_of_toBitVec_eq (BitVec.eq_of_toNat_eq h))

theorem ltChars_irrefl : ∀ l : List Char, ltChars l l = false
  | [] => rfl
  | c :: rest => by simp [ltChars, ltChars_irrefl rest]

theorem ltChars_cons_iff {x y : Char} {xs ys : List Char} :
    ltChars (x :: xs) (y :: ys) = true ↔
      x.toNat < y.toNat ∨ (x.toNat = y.toNat ∧ ltChars xs ys = true) := by
  by_cases h1 : x.toNat < y.toNat
  · simp [ltChars, h1]
  · by_cases h2 : y.toNat < x.toNat
    · simp only [ltChars, if_neg h1, if_pos h2]
      constructor
      · intro h; exact absurd h (by simp)
      · rintro (h | ⟨he, _⟩) <;> omega
    · have he : x.toNat = y.toNat := by omega
      simp [ltChars, h1, h2, he]

theorem ltChars_trans : ∀ a b c : List Char,
    ltChars a b = true → ltChars b c = true → ltChars a c = true
  | _, [], [], _, hbc => by simp [ltChars] at hbc
  | [], [], _ :: _, hab, _ => by simp [ltChars] at hab
  | _ :: _, [], _ :: _, hab, _ => by simp [ltChars] at hab
  | [], _ :: _, _ :: _, _, _ => rfl
  | _ :: _, _ :: _, [], _, hbc => by simp [ltChars] at hbc
  | x :: xs, y :: ys, z :: zs, hab, hbc => by
      rw [ltChars_cons_iff] at hab hbc ⊢
      rcases hab with h1 | ⟨he1, ht1⟩
      · rcases hbc with h2 | ⟨he2, _⟩
        · exact Or.inl (Nat.lt_trans h1 h2)
        · exact Or.inl (he2 ▸ h1)
      · rcases hbc with h2 | ⟨he2, ht2⟩
        · exact Or.inl (he1 ▸ h2)
        · exact Or.inr ⟨he1.trans he2, ltChars_trans xs ys zs ht1 ht2⟩

theorem bool_eq_false {b : Bool} (h : ¬b = true) : b = false := by
  cases b
  · rfl
  · exact absurd rfl h

theorem ltChars_of_not_of_ne : ∀ a b : List Char,
    ltChars a b = false → a ≠ b → ltChars b a = true
  | [], [], _, hne => absurd rfl hne
  | [], _ :: _, h, _ => by simp [ltChars] at h
  | _ :: _, [], _, _ => rfl
  | x :: xs, y :: ys, h, hne => by
      by_cases h1 : x.toNat < y.toNat
      · exact absurd (ltChars_cons_iff.mpr (Or.inl h1) : ltChars (x :: xs) (y :: ys) = true)
          (by simp [h])
      · by_cases h2 : y.toNat < x.toNat
        · exact ltChars_cons_iff.mpr (Or.inl h2)
        · have he : x.toNat = y.toNat := by omega
          have hxy : x = y := char_eq_of_toNat_eq he
          subst hxy
          have hxs : xs ≠ ys := fun hcontra => hne (by rw [hcontra])
          have hts : ltChars xs ys = false := by
            cases h' : ltChars xs ys
            · rfl
            · exact absurd
                (ltChars_cons_iff.mpr (Or.inr ⟨rfl, h'⟩) : ltChars (x :: xs) (x :: ys) = true)
                (by simp [h])
          exact ltChars_cons_iff.mpr (Or.inr ⟨rfl, ltChars_of_not_of_ne xs ys hts hxs⟩)

theorem strLt_irrefl (a : String) : strLt a a = false :=
  ltChars_irrefl a.data

theorem strLt_trans {a b c : String} (h1 : strLt a b = true) (h2 : strLt b c = true) :
    strLt a c = true :=
  ltChars_trans a.data b.data c.data h1 h2

theorem strLt_of_not_of_ne {a b : String} (h : strLt a b = false) (hne : a ≠ b) :
    strLt b a = true :=
  ltChars_of_not_of_ne a.data b.data h (fun hd => hne (String.ext hd))

theorem strLt_ne {a b : String} (h : strLt a b = true) : a ≠ b := by
  intro he
  rw [he, strLt_irrefl] at h
  exact absurd h (by simp)

/-- The key list of a map, in iteration order. -/
def mapKeys {α : Type} (r : List (String × α)) : List String :=
  r.map Prod.fst

theorem mapLookup_mapInsert_self {α : Type} (k : String) (v : α) :
    ∀ r : List (String × α), mapLookup k (mapInsert k v r) = some v
  | [] => by simp [mapInsert, mapLookup]
  | (k', v') :: rest => by
      by_cases h1 : strLt k k'
      · simp [mapInsert, h1, mapLookup]
      · by_cases h2 : k = k'
        · subst h2
          simp [mapInsert, strLt_irrefl, mapLookup]
        · simp [mapInsert, h1, h2, mapLookup, mapLookup_mapInsert_self k v rest]

theorem length_mapInsert_of_lookup_none {α : Type} (k : String) (v : α) :
    ∀ r : List (String × α), mapLookup k r = none →
      (mapInsert k v r).length = r.length + 1
  | [], _ => rfl
  | (k', v') :: rest, h => by
      have h2 : k ≠ k' := by
        intro he
        simp [mapLookup, he] at h
      have hrest : mapLookup k rest = none := by
        simpa [mapLookup, h2] using h
      by_cases h1 : strLt k k'
      · simp [mapInsert, h1]
      · simp [mapInsert, h1, h2, length_mapInsert_of_lookup_none k v rest hrest]

theorem mem_mapKeys_mapInsert {α : Type} (k : String) (v : α) :
    ∀ (r : List (String × α)) (x : String),
      x ∈ mapKeys (mapInsert k v r) ↔ x = k ∨ x ∈ mapKeys r
  | [], x => by simp [mapInsert, mapKeys]
  | (k', v') :: rest, x => by
      by_cases h1 : strLt k k'
      · simp [mapInsert, h1, mapKeys]
      · by_cases h2 : k = k'
        · subst h2
          simp [mapInsert, strLt_irrefl, mapKeys, List.mem_cons]
        · have ih := mem_mapKeys_mapInsert k v rest x
          simp only [mapKeys, List.map_cons, List.mem_cons] at ih ⊢
          simp only [mapInsert, if_neg h1, if_neg h2, List.map_cons, List.mem_cons]
          rw [show (List.map Prod.fst (mapInsert k v rest) : List String) =
            mapKeys (mapInsert k v rest) from rfl] at *
          simp only [mapKeys] at ih ⊢
          rw [ih]
          tauto

theorem toFinset_mapKeys_mapInsert {α : Type} (k : String) (v : α) (r : List (String × α)) :
    (mapKeys (mapInsert k v r)).toFinset = insert k (mapKeys r).toFinset := by
  ext x
  simp [mem_mapKeys_mapInsert]

/-- The `std::map` invariant: keys appear in strictly increasing order. -/
def keysSorted {α : Type} (r : List (String × α)) : Prop :=
  (mapKeys r).Pairwise (fun a b => strLt a b = true)

theorem keysSorted_nil {α : Type} : keysSorted ([] : List (String × α)) :=
  List.Pairwise.nil

theorem keysSorted_mapInsert {α : Type} (k : String) (v : α) :
    ∀ r : List (String × α), keysSorted r → keysSorted (mapInsert k v r)
  | [], _ => by simp [mapInsert, keysSorted, mapKeys]
  | (k', v') :: rest, h => by
      have hhead := (List.pairwise_cons.mp h).1
      have htail := (List.pairwise_cons.mp h).2
      by_cases h1 : strLt k k'
      · unfold keysSorted mapKeys
        simp only [mapInsert, if_pos h1, List.map_cons]
        refine List.pairwise_cons.mpr ⟨?_, h⟩
        intro x hx
        rcases List.mem_cons.mp hx with he | hm
        · exact he ▸ h1
        · exact strLt_trans h1 (hhead x hm)
      · by_cases h2 : k = k'
        · subst h2
          unfold keysSorted mapKeys
          simp only [mapInsert, if_neg h1, if_pos rfl, List.map_cons]
          exact List.pairwise_cons.mpr ⟨hhead, htail⟩
        · unfold keysSorted mapKeys
          simp only [mapInsert, if_neg h1, if_neg h2, List.map_cons]
          refine List.pairwise_cons.mpr ⟨?_, keysSorted_mapInsert k v rest htail⟩
          intro x hx
          rcases (mem_mapKeys_mapInsert k v rest x).mp hx with he | hm
          · exact he ▸ strLt_of_not_of_ne (bool_eq_false h1) (fun hc => h2 hc)
          · exact hhead x hm

theorem keysNodup_of_sorted {α : Type} (r : List (String × α)) (h : keysSorted r) :
    (mapKeys r).Nodup :=
  h.imp (fun hab => strLt_ne hab)

/-- A sequence of entry-form `add` calls applied left to right. -/
def addFold (r : ConnectionsRegistry) (adds : List (String × ConnectionsIndexEntry)) :
    ConnectionsRegistry :=
  adds.foldl (fun acc p => ConnectionsRegistry.add p.1 p.2 acc) r

/-- A sequence of entry-form `add` calls on a freshly constructed registry. -/
def buildRegistry (adds : List (String × ConnectionsIndexEntry)) : ConnectionsRegistry :=
  addFold [] adds

/-- The composite key a single entry-form `add` writes to. -/
def addKey (p : String × ConnectionsIndexEntry) : String :=
  constructKey p.1 p.2.name

theorem toFinset_mapKeys_addFold :
    ∀ (adds : List (String × ConnectionsIndexEntry)) (r : ConnectionsRegistry),
      (mapKeys (addFold r adds)).toFinset = (mapKeys r).toFinset ∪ (adds.map addKey).toFinset
  | [], r => by simp [addFold]
  | a :: adds, r => by
      rw [show addFold r (a :: adds) = addFold (ConnectionsRegistry.add a.1 a.2 r) adds from rfl,
        toFinset_mapKeys_addFold adds]
      rw [show ConnectionsRegistry.add a.1 a.2 r = mapInsert (addKey a) a.2 r from rfl,
        toFinset_mapKeys_mapInsert]
      rw [List.map_cons, List.toFinset_cons, Finset.insert_union, Finset.union_insert]

theorem keysSorted_addFold :
    ∀ (adds : List (String × ConnectionsIndexEntry)) (r : ConnectionsRegistry),
      keysSorted r → keysSorted (addFold r adds)
  | [], _, h => h
  | a :: adds, r, h =>
      keysSorted_addFold adds (ConnectionsRegistry.add a.1 a.2 r)
        (keysSorted_mapInsert (addKey a) a.2 r h)

/-- Claim C8: over any sequence of `add(pkg, entry)` calls on one registry,
`size()` equals the number of distinct `package::name` composite keys used,
so an `add` with an already-used key overwrites instead of accumulating; and
the entry stored under a key after an `add` to it is the entry of that last
`add` (last-writer-wins). -/
theorem claimC8_size_distinct_keys (adds : List (String × ConnectionsIndexEntry)) :
    (buildRegistry adds).size = (adds.map addKey).toFinset.card ∧
    ∀ (p : String) (e : ConnectionsIndexEntry),
      mapLookup (constructKey p e.name) (buildRegistry (adds ++ [(p, e)])) = some e := by
  constructor
  · have hs : keysSorted (buildRegistry adds) := keysSorted_addFold adds [] keysSorted_nil
    have hn : (mapKeys (buildRegistry adds)).Nodup := keysNodup_of_sorted _ hs
    have hlen : (buildRegistry adds).size = (mapKeys (buildRegistry adds)).length := by
      simp [ConnectionsRegistry.size, mapKeys]
    rw [hlen, ← List.toFinset_card_of_nodup hn]
    rw [show buildRegistry adds = addFold [] adds from rfl, toFinset_mapKeys_addFold adds]
    simp [mapKeys]
  · intro p e
    rw [show buildRegistry (adds ++ [(p, e)]) = addFold [] (adds ++ [(p, e)]) from rfl]
    rw [addFold, List.foldl_append]
    simp only [List.foldl_cons, List.foldl_nil]
    exact mapLookup_mapInsert_self _ _ _

theorem runEvents_nil (s : IndexerState) : runEvents s [] = s := rfl

theorem runEvents_cons (s : IndexerState) (e : IndexEvent) (es : List IndexEvent) :
    runEvents s (e :: es) = runEvents (indexStep s e) es := rfl

theorem runEvents_append (s : IndexerState) (l1 l2 : List IndexEvent) :
    runEvents s (l1 ++ l2) = runEvents (runEvents s l1) l2 := by
  unfold runEvents
  exact List.foldl_append _ _ _ _

theorem runEvents_works : ∀ (works : List WorkItem) (s : IndexerState), s.running = true →
    runEvents s (works.map IndexEvent.work) =
      { s with pRegistry :=
          (works.foldl (fun r w => ConnectionsRegistry.addDcfFile w.pkgName w.contents r)
            s.pRegistry) }
  | [], s, _ => by simp [runEvents]
  | w :: ws, s, h => by
      have hstep : indexStep s (.work w) =
          { s with
              pRegistry := ConnectionsRegistry.addDcfFile w.pkgName w.contents s.pRegistry } := by
        simp [indexStep, h]
      rw [List.map_cons, runEvents_cons, hstep,
        runEvents_works ws
          { s with
              pRegistry := ConnectionsRegistry.addDcfFile w.pkgName w.contents s.pRegistry } h,
        List.foldl_cons]

/-- Claim C1: a `start()` request arriving while `running()` is true begins no
second pass — the pass counter, the running flag and the in-flight pass's
registry are untouched and the continuation is only queued — and when the
pass already in flight completes (after any further work items), that
continuation is resolved with the registry that pass produced, the pass
counter still unchanged. -/
theorem claimC1_no_second_pass (s : IndexerState) (c : Nat) (works : List WorkItem)
    (dev : Option DevInfo) (h : s.running = true) :
    (indexStep s (.request (some c))).passesStarted = s.passesStarted ∧
    (indexStep s (.request (some c))).running = true ∧
    (indexStep s (.request (some c))).pRegistry = s.pRegistry ∧
    (indexStep s (.request (some c))).continuations = s.continuations ++ [c] ∧
    (runEvents (indexStep s (.request (some c)))
        (works.map .work ++ [.complete dev])).passesStarted = s.passesStarted ∧
    (runEvents (indexStep s (.request (some c)))
        (works.map .work ++ [.complete dev])).currentRegistry =
      passExtend s.pRegistry works dev ∧
    (c, (runEvents (indexStep s (.request (some c)))
        (works.map .work ++ [.complete dev])).currentRegistry.toJson) ∈
      (runEvents (indexStep s (.request (some c)))
        (works.map .work ++ [.complete dev])).resolutions := by
  have hreq : indexStep s (.request (some c)) =
      { s with continuations := s.continuations ++ [c] } := by
    simp [indexStep, h]
  have hmid :
      runEvents (indexStep s (.request (some c))) (works.map .work) =
        { s with
            continuations := s.continuations ++ [c],
            pRegistry :=
              (works.foldl (fun r w => ConnectionsRegistry.addDcfFile w.pkgName w.contents r)
                s.pRegistry) } := by
    rw [hreq, runEvents_works works { s with continuations := s.continuations ++ [c] } h]
  have hfin :
      runEvents (indexStep s (.request (some c))) (works.map .work ++ [.complete dev]) =
        indexStep (runEvents (indexStep s (.request (some c))) (works.map .work))
          (.complete dev) := by
    rw [runEvents_append, runEvents_cons, runEvents_nil]
  refine ⟨by rw [hreq], by rw [hreq]; exact h, by rw [hreq], by rw [hreq], ?_, ?_, ?_⟩
  · rw [hfin, hmid]
    cases dev <;> simp [indexStep, h]
  · rw [hfin, hmid]
    cases dev <;> simp [indexStep, h, passExtend]
  · rw [hfin, hmid]
    cases dev <;> simp [indexStep, h, passExtend]

/-- A concrete state mid-pass: one pass started and still running, nothing
queued or published yet. -/
def midPassState : IndexerState :=
  { running := true, pRegistry := [], continuations := [], currentRegistry := [],
    resolutions := [], passesStarted := 1 }

/-- Closed witness for claim C1: a state mid-pass, one queued continuation,
empty remaining work. -/
theorem claimC1_no_second_pass_witness :
    midPassState.running = true ∧
    ((indexStep midPassState (.request (some 0))).passesStarted = 1 ∧
     (indexStep midPassState (.request (some 0))).running = true ∧
     (indexStep midPassState (.request (some 0))).pRegistry = [] ∧
     (indexStep midPassState (.request (some 0))).continuations = [0] ∧
     (runEvents (indexStep midPassState (.request (some 0)))
        [.complete none]).passesStarted = 1 ∧
     (runEvents (indexStep midPassState (.request (some 0)))
        [.complete none]).currentRegistry = [] ∧
     (0, (runEvents (indexStep midPassState (.request (some 0)))
        [.complete none]).currentRegistry.toJson) ∈
       (runEvents (indexStep midPassState (.request (some 0)))
        [.complete none]).resolutions) :=
  ⟨rfl, claimC1_no_second_pass midPassState 0 [] none rfl⟩

/-- Claim C2: starting a pass while idle leaves the published registry
untouched throughout the pass (the previously published snapshot keeps
serving reads, unmutated), and once `onIndexingCompleted` runs, the published
registry is exactly the one built from that pass's work items (plus the
development self-entry, if load-all mode was active and the file existed) —
built from a fresh empty registry, hence free of any prior pass's entries. -/
theorem claimC2_pass_snapshot (s : IndexerState) (c : Option Nat) (pre works : List WorkItem)
    (dev : Option DevInfo) (h : s.running = false) :
    (runEvents s (.request c :: pre.map .work)).currentRegistry = s.currentRegistry ∧
    (runEvents s (.request c :: (works.map .work ++ [.complete dev]))).currentRegistry =
      passRegistry works dev ∧
    ((runEvents s (.request c :: (works.map .work ++ [.complete dev]))).currentRegistry).toJson =
      (passRegistry works dev).toJson := by
  have hreq : ∃ conts, indexStep s (.request c) =
      { s with running := true, pRegistry := [], continuations := conts,
               passesStarted := s.passesStarted + 1 } := by
    cases c with
    | none => exact ⟨s.continuations, by simp [indexStep, h]⟩
    | some id => exact ⟨s.continuations ++ [id], by simp [indexStep, h]⟩
  obtain ⟨conts, hreq⟩ := hreq
  have hduring :
      (runEvents s (.request c :: pre.map .work)).currentRegistry = s.currentRegistry := by
    rw [runEvents_cons, hreq,
      runEvents_works pre
        { s with running := true, pRegistry := [], continuations := conts,
                 passesStarted := s.passesStarted + 1 } rfl]
  have hfull :
      (runEvents s (.request c :: (works.map .work ++ [.complete dev]))).currentRegistry =
        passRegistry works dev := by
    rw [runEvents_cons, hreq, runEvents_append,
      runEvents_works works
        { s with running := true, pRegistry := [], continuations := conts,
                 passesStarted := s.passesStarted + 1 } rfl,
      runEvents_cons, runEvents_nil]
    cases dev <;> simp [indexStep, passRegistry, passExtend]
  exact ⟨hduring, hfull, by rw [hfull]⟩

/-- Closed witness for claim C2: a fresh state, one queued continuation, one
work item delivering one descriptor file, no development self-entry. -/
theorem claimC2_pass_snapshot_witness :
    initialIndexerState.running = false ∧
    ((runEvents initialIndexerState [.request (some 5)]).currentRegistry = [] ∧
     (runEvents initialIndexerState [.request (some 5),
        .work ⟨"odbc", some "Name: pg"⟩, .complete none]).currentRegistry =
       [("odbc::pg", ⟨"pg", "odbc"⟩)] ∧
     ((runEvents initialIndexerState [.request (some 5),
        .work ⟨"odbc", some "Name: pg"⟩, .complete none]).currentRegistry).toJson =
       JValue.obj [("odbc::pg",
         JValue.obj [("name", JValue.str "pg"), ("package", JValue.str "odbc")])]) :=
  ⟨rfl, claimC2_pass_snapshot initialIndexerState (some 5) []
    [⟨"odbc", some "Name: pg"⟩] none rfl⟩

/-- Claim C3 is wrong about the code: `onIndexingCompleted` resolves the
queued continuations in FIFO order with the new registry's JSON, but never
clears `continuations_`, so a continuation queued before one pass is resolved
again by every later pass.  Here continuation `7`, queued before the first
(empty) pass, is resolved a second time when a second pass completes. -/
theorem claimC3_continuation_resolved_twice :
    (runEvents initialIndexerState
      [.request (some 7), .complete none, .request none,
       .work ⟨"odbc", some "Name: pg"⟩, .complete none]).resolutions =
      [(7, JValue.obj []),
       (7, JValue.obj [("odbc::pg",
          JValue.obj [("name", JValue.str "pg"), ("package", JValue.str "odbc")])])] ∧
    (runEvents initialIndexerState
      [.request (some 7), .complete none]).continuations = [7] :=
  ⟨rfl, rfl⟩

theorem splitAux_norm_no_newline : ∀ l : List Char, (∀ c ∈ l, c ≠ '\n') →
    splitAux .norm l = [l]
  | [], _ => rfl
  | c :: rest, h => by
      have hc : ¬c = '\n' := h c (List.mem_cons_self c rest)
      simp [splitAux, hc, consCur,
        splitAux_norm_no_newline rest (fun x hx => h x (List.mem_cons_of_mem c hx))]

theorem splitAux_norm_append : ∀ (l1 more : List Char), (∀ c ∈ l1, c ≠ '\n') →
    splitAux .norm (l1 ++ '\n' :: '\n' :: more) = l1 :: splitAux .sep more
  | [], more, _ => by simp [splitAux]
  | c :: l1, more, h => by
      have hc : ¬c = '\n' := h c (List.mem_cons_self c l1)
      simp [splitAux, hc, consCur,
        splitAux_norm_append l1 more (fun x hx => h x (List.mem_cons_of_mem c hx))]

theorem splitAux_sep_skip (more : List Char) :
    splitAux .sep ('\n' :: more) = splitAux .sep more := by
  simp [splitAux]

theorem splitAux_sep_no_newline (c : Char) (rest : List Char) (h : ∀ x ∈ c :: rest, x ≠ '\n') :
    splitAux .sep (c :: rest) = [c :: rest] := by
  have hc : ¬c = '\n' := h c (List.mem_cons_self c rest)
  simp [splitAux, hc, consCur,
    splitAux_norm_no_newline rest (fun x hx => h x (List.mem_cons_of_mem c hx))]

theorem splitBlocks_eq (s : String) (h : s.data ≠ []) :
    splitBlocks s = (splitAux .norm s.data).map (fun t => String.mk t) := by
  unfold splitBlocks
  cases hd : s.data with
  | nil => exact absurd hd h
  | cons a l => rfl

/-- Claim C5: `add(pkg, filePath)` splits the descriptor text at every run of
two-or-more newlines: any two newline-free blocks separated by three blank
lines come back as exactly those two blocks, and the two-block example
produces exactly two registry entries. -/
theorem claimC5_block_splitting (b1 b2 : String)
    (h1 : ∀ c ∈ b1.data, c ≠ '\n') (h2 : ∀ c ∈ b2.data, c ≠ '\n') (h3 : b2.data ≠ []) :
    splitBlocks (b1 ++ "\n\n\n\n" ++ b2) = [b1, b2] ∧
    (ConnectionsRegistry.addDcfFile "pkg" (some "Name: a\n\n\n\nName: b") []).size = 2 := by
  constructor
  · have hdata : (b1 ++ "\n\n\n\n" ++ b2).data =
        b1.data ++ '\n' :: '\n' :: ('\n' :: '\n' :: b2.data) := by
      rw [String.data_append, String.data_append]
      simp
    obtain ⟨c, cs, hb2⟩ : ∃ c cs, b2.data = c :: cs := by
      cases hb : b2.data with
      | nil => exact absurd hb h3
      | cons c cs => exact ⟨c, cs, rfl⟩
    have hne : (b1 ++ "\n\n\n\n" ++ b2).data ≠ [] := by
      rw [hdata]
      simp
    rw [splitBlocks_eq _ hne, hdata, splitAux_norm_append b1.data _ h1,
      splitAux_sep_skip, splitAux_sep_skip, hb2,
      splitAux_sep_no_newline c cs (by rw [← hb2]; exact h2), ← hb2]
    rfl
  · rfl

/-- Closed witness for claim C5: two one-line blocks with distinct names. -/
theorem claimC5_block_splitting_witness :
    splitBlocks ("Name: a" ++ "\n\n\n\n" ++ "Name: b") = ["Name: a", "Name: b"] ∧
    (ConnectionsRegistry.addDcfFile "pkg" (some "Name: a\n\n\n\nName: b") []).size = 2 :=
  claimC5_block_splitting "Name: a" "Name: b" (by decide) (by decide) (by decide)

/-- Claim C4 is wrong about the code on parse errors: a block that fails to
parse is *not* skipped.  `parseConnectionsDcf` returns the (partial) field
mapping anyway and `add(pkgName, fields)` is called unconditionally, so the
unparseable block `"@@@"` still creates an entry (with empty name) for its
package. -/
theorem claimC4_parse_error_counterexample :
    (parseDcfFile "@@@").2 = true ∧
    ConnectionsRegistry.addDcfFile "p" (some "@@@") [] =
      [("p::", ⟨"", "p"⟩)] :=
  ⟨rfl, rfl⟩

/-- Claim C4 as amended: a read error is logged and the whole file is skipped
(the registry is unchanged — no entries from that file); a parse error on a
block is logged but the block still creates exactly one entry, built from the
fields parsed before the error (empty name if `Name` was not among them); and
neither kind of error aborts sibling blocks or the pass — a well-formed block
following an unparseable one is still indexed. -/
theorem claimC4_amended_error_handling :
    (∀ (pkg : String) (r : ConnectionsRegistry),
      ConnectionsRegistry.addDcfFile pkg none r = r) ∧
    ((parseDcfFile "@@@").2 = true ∧
      ConnectionsRegistry.addDcfFields "p" (parseConnectionsDcf "@@@") [] =
        [("p::", ⟨"", "p"⟩)]) ∧
    ConnectionsRegistry.addDcfFile "p" (some "@@@\n\nName: ok") [] =
      [("p::", ⟨"", "p"⟩), ("p::ok", ⟨"ok", "p"⟩)] :=
  ⟨fun _ _ => rfl, ⟨rfl, rfl⟩, rfl⟩

/-- Claim C6: a block whose parsed field mapping lacks `Name` still creates
exactly one entry — the single insertion under key `pkg::` — whose name is
the empty string, and the registry afterwards contains that empty name. -/
theorem claimC6_missing_name (pkg block : String) (r : ConnectionsRegistry)
    (h : mapLookup "Name" (parseConnectionsDcf block) = none) :
    ConnectionsRegistry.addDcfFields pkg (parseConnectionsDcf block) r =
      mapInsert (constructKey pkg "") ⟨"", pkg⟩ r ∧
    ConnectionsRegistry.contains pkg ""
      (ConnectionsRegistry.addDcfFields pkg (parseConnectionsDcf block) r) = true := by
  have hget : fieldsGet (parseConnectionsDcf block) "Name" = "" := by
    simp [fieldsGet, h]
  constructor
  · simp [ConnectionsRegistry.addDcfFields, ConnectionsRegistry.add, hget]
  · simp [ConnectionsRegistry.addDcfFields, ConnectionsRegistry.add, hget,
      ConnectionsRegistry.contains, mapLookup_mapInsert_self]

/-- Closed witness for claim C6: a block with a `Host` field but no `Name`. -/
theorem claimC6_missing_name_witness :
    ConnectionsRegistry.addDcfFields "p" (parseConnectionsDcf "Host: localhost") [] =
      mapInsert (constructKey "p" "") ⟨"", "p"⟩ [] ∧
    ConnectionsRegistry.contains "p" ""
      (ConnectionsRegistry.addDcfFields "p" (parseConnectionsDcf "Host: localhost") []) = true :=
  claimC6_missing_name "p" "Host: localhost" [] rfl

theorem mapLookup_map_toJson (k : String) :
    ∀ r : ConnectionsRegistry,
      mapLookup k (r.map (fun p => (p.1, p.2.toJson))) =
        (mapLookup k r).map ConnectionsIndexEntry.toJson
  | [] => rfl
  | (k', v) :: rest => by
      by_cases h : k = k' <;> simp [mapLookup, h, mapLookup_map_toJson k rest]

/-- The field list of a JSON object (empty for a string). -/
def JValue.objFields : JValue → List (String × JValue)
  | .obj l => l
  | .str _ => []

/-- Claim C7: `toJson()` keys each entry by `package::name` and serializes it
as `{"name": ..., "package": ...}`; in particular the two-block example for
package `odbc` produces exactly the claimed registry JSON. -/
theorem claimC7_wire_format :
    (∀ (package : String) (e : ConnectionsIndexEntry) (r : ConnectionsRegistry),
      mapLookup (constructKey package e.name)
          ((ConnectionsRegistry.add package e r).toJson.objFields) =
        some (JValue.obj [("name", .str e.name), ("package", .str e.package)])) ∧
    (ConnectionsRegistry.addDcfFile "odbc" (some "Name: pg\n\nName: sqlite\n") []).toJson =
      JValue.obj
        [("odbc::pg", JValue.obj [("name", JValue.str "pg"), ("package", JValue.str "odbc")]),
         ("odbc::sqlite",
          JValue.obj [("name", JValue.str "sqlite"), ("package", JValue.str "odbc")])] := by
  constructor
  · intro package e r
    show mapLookup (constructKey package e.name)
        ((ConnectionsRegistry.add package e r).map (fun p => (p.1, p.2.toJson))) = _
    rw [mapLookup_map_toJson,
      show ConnectionsRegistry.add package e r =
        mapInsert (constructKey package e.name) e r from rfl,
      mapLookup_mapInsert_self]
    rfl
  · rfl

theorem matchCommandLoop_eq (input : List Char) : ∀ cmds : List String,
    matchCommandLoop cmds input =
      if cmds.any (fun command => command.data.isPrefixOf input)
      then [⟨1, true, .indexLibraryPaths⟩] else []
  | [] => rfl
  | command :: rest => by
      by_cases h : command.data.isPrefixOf input <;>
        simp [matchCommandLoop, h, matchCommandLoop_eq input rest]

/-- Claim C9: with the packages pane enabled, a console line whose trimmed
text starts with one of the six recognized package-mutating commands
schedules exactly one delayed (one second) idle-only re-index, and any other
line schedules none; in particular the two example inputs behave as claimed. -/
theorem claimC9_console_trigger :
    (∀ input : String,
      onConsoleInput false input =
        if packageCommands.any (fun command => command.data.isPrefixOf (trimChars input.data))
        then [⟨1, true, .indexLibraryPaths⟩] else []) ∧
    onConsoleInput false "install.packages(\"DBI\")" = [⟨1, true, .indexLibraryPaths⟩] ∧
    onConsoleInput false "x <- 1" = [] := by
  refine ⟨fun input => ?_, rfl, rfl⟩
  simp [onConsoleInput, matchCommandLoop_eq]

/-- Claim C10: `get` on an absent key is not read-only — `operator[]`
default-inserts, so afterwards `contains` holds, `size` has grown by one, the
registry has changed, and the returned entry has empty name and package. -/
theorem claimC10_get_default_inserts (package name : String) (r : ConnectionsRegistry)
    (h : ConnectionsRegistry.contains package name r = false) :
    ConnectionsRegistry.contains package name
        (ConnectionsRegistry.get package name r).2 = true ∧
    (ConnectionsRegistry.get package name r).2.size = r.size + 1 ∧
    (ConnectionsRegistry.get package name r).1 = ⟨"", ""⟩ ∧
    (ConnectionsRegistry.get package name r).2 ≠ r := by
  have hnone : mapLookup (constructKey package name) r = none := by
    cases hm : mapLookup (constructKey package name) r with
    | none => rfl
    | some e => simp [ConnectionsRegistry.contains, hm] at h
  have hget : ConnectionsRegistry.get package name r =
      (⟨"", ""⟩, mapInsert (constructKey package name) (⟨"", ""⟩ : ConnectionsIndexEntry) r) := by
    simp [ConnectionsRegistry.get, hnone]
  rw [hget]
  refine ⟨?_, ?_, rfl, ?_⟩
  · simp [ConnectionsRegistry.contains, mapLookup_mapInsert_self]
  · simp [ConnectionsRegistry.size, length_mapInsert_of_lookup_none _ _ r hnone]
  · intro heq
    have hlen := congrArg List.length heq
    rw [length_mapInsert_of_lookup_none _ _ r hnone] at hlen
    omega

/-- Closed witness for claim C10: looking up an absent key in the empty
registry. -/
theorem claimC10_get_default_inserts_witness :
    ConnectionsRegistry.contains "odbc" "pg"
        (ConnectionsRegistry.get "odbc" "pg" []).2 = true ∧
    (ConnectionsRegistry.get "odbc" "pg" []).2.size = 1 ∧
    (ConnectionsRegistry.get "odbc" "pg" []).1 = ⟨"", ""⟩ ∧
    (ConnectionsRegistry.get "odbc" "pg" []).2 ≠ [] :=
  claimC10_get_default_inserts "odbc" "pg" [] rfl
